import Mathlib

/-!
# DropZone upload pipeline — shallow embedding

A shallow embedding of the core of the DropZone file-drop server
(`src/main.rs`): the multipart upload handler `handle_upload`, the
message handler `handle_message`, destination-name resolution
(Rust `Path::file_stem` / `Path::extension` plus a uuid-prefix token),
and the body-size guard installed in `main`.

Modelling conventions:
* A multipart stream is a list of `NextField` events: `ok f` models
  `next_field()` returning `Ok(Some(field))`, `done` models `Ok(None)`
  and `fErr` models `Err(_)`.  The Rust loop `while let Ok(Some(field))`
  stops at the first `done` or `fErr` (or at the end of the list, which
  also models an exhausted stream).
* The filesystem under the upload directory is an association list from
  destination name to byte content; `fsWrite` models `tokio::fs::write`,
  which replaces the content when the path already exists.
* Random `Uuid::new_v4().to_string()` values are an oracle: a list of
  strings consumed one per name resolution; `take8` models the byte
  slice `[..8]` (uuid strings are 36 ASCII characters, so the slice is
  total in the real program).
* Whether `field.bytes()` / `field.text()` / `fs::write` succeed for a
  given part is environment behaviour, recorded as Booleans on the
  field record.  A failed write leaves the filesystem unchanged.
* Status codes are plain naturals (200, 413, 500); payload bytes are
  `List Nat`; `String.trim` stands for Rust `str::trim` (both remove
  leading/trailing whitespace; the claims only involve ASCII blanks).
-/

namespace DropZone

/-- Byte contents of a file. -/
abbrev Bytes := List Nat

/-- Files under the upload directory: destination name ↦ content. -/
abbrev FS := List (String × Bytes)

/-- `tokio::fs::write`: create or truncate+overwrite the named file. -/
def fsWrite (n : String) (d : Bytes) (fs : FS) : FS :=
  (n, d) :: fs.filter (fun p => p.1 != n)

/-- One outcome of `multipart.next_field().await`. -/
inductive NextField (F : Type) where
  | ok : F → NextField F
  | done : NextField F
  | fErr : NextField F
deriving DecidableEq

/-- One multipart field as seen by `handle_upload`: its
`file_name()`, whether `bytes()` succeeds, the payload, and whether
the subsequent `fs::write` would succeed. -/
structure UploadField where
  fileName : Option String
  readOk : Bool
  data : Bytes
  writeOk : Bool
deriving DecidableEq

/-- One multipart field as seen by `handle_message`: its `name()`,
whether `text()` succeeds, and the decoded text. -/
structure MessageField where
  name : Option String
  textOk : Bool
  text : String
deriving DecidableEq

/-! ## Rust `Path::file_name` / `file_stem` / `extension` -/

/-- Split a character list on `'/'` (the chunks between separators,
like `String.splitOn`; the empty input gives one empty chunk). -/
def splitSlash : List Char → List (List Char)
  | [] => [[]]
  | c :: cs =>
    if c = '/' then [] :: splitSlash cs
    else
      match splitSlash cs with
      | [] => [[c]]
      | h :: t => (c :: h) :: t

/-- `Path::file_name` on a Unix path string: the last normal component
(`""` and `"."` chunks are skipped; a trailing `".."` yields `none`). -/
def rustFileName (p : String) : Option String :=
  let comps := (splitSlash p.data).filter (fun c => !(c.isEmpty || c == ['.']))
  match comps.getLast? with
  | none => none
  | some c => if c == ['.', '.'] then none else some ⟨c⟩

/-- Split a character list at its final `'.'`: `some (pre, suf)` with
the dot removed, or `none` when no dot occurs. -/
def lastDotSplit : List Char → Option (List Char × List Char)
  | [] => none
  | c :: cs =>
    match lastDotSplit cs with
    | some (pre, suf) => some (c :: pre, suf)
    | none => if c = '.' then some ([], cs) else none

/-- Rust's stem/extension rule on a (nonempty) file name: no embedded
dot, or a name whose only dot is its leading character, has the whole
name as stem and no extension; otherwise the final dot splits stem from
extension. -/
def rustSplitExt (n : String) : String × Option String :=
  match lastDotSplit n.data with
  | none => (n, none)
  | some ([], _) => (n, none)
  | some (pre, suf) => (⟨pre⟩, some ⟨suf⟩)

/-- `PathBuf::from(&file_name).file_stem().unwrap_or_default()`. -/
def stemOf (fileName : String) : String :=
  match rustFileName fileName with
  | none => ""
  | some n => (rustSplitExt n).1

/-- `PathBuf::from(&file_name).extension().map(|e| format!(".{e}"))
.unwrap_or_default()`. -/
def extOf (fileName : String) : String :=
  match rustFileName fileName with
  | none => ""
  | some n =>
    match (rustSplitExt n).2 with
    | none => ""
    | some e => "." ++ e

/-- The byte slice `[..8]` of a uuid string. -/
def take8 (u : String) : String := ⟨u.data.take 8⟩

/-- `format!("{}-{}{}", stem, &uuid[..8], ext)` for a part whose
original file name is `n` and whose fresh uuid string is `u`. -/
def destName (n u : String) : String :=
  stemOf n ++ "-" ++ take8 u ++ extOf n

/-- Rust `str::trim`: remove leading and trailing whitespace (the
claims only involve ASCII blanks, on which `Char.isWhitespace` and
Rust's `char::is_whitespace` agree). -/
def rustTrim (s : String) : String :=
  ⟨((s.data.dropWhile Char.isWhitespace).reverse.dropWhile
      Char.isWhitespace).reverse⟩

/-! ## The upload handler -/

/-- `handle_upload`: consume the multipart stream, skipping parts
without a (nonempty) file name, writing each remaining part's payload
under a resolved destination name, and returning 500 at the first read
or write failure.  Returns (status, final filesystem, log lines), a log
line being the destination name and payload size printed on success. -/
def handle_upload (uuids : List String) (fs : FS) :
    List (NextField UploadField) → Nat × FS × List (String × Nat)
  | [] => (200, fs, [])
  | NextField.done :: _ => (200, fs, [])
  | NextField.fErr :: _ => (200, fs, [])
  | NextField.ok f :: rest =>
    match f.fileName with
    | none => handle_upload uuids fs rest
    | some n =>
      if n.isEmpty then handle_upload uuids fs rest
      else if f.readOk then
        let dest := destName n (uuids.headD "")
        if f.writeOk then
          let out := handle_upload uuids.tail (fsWrite dest f.data fs) rest
          (out.1, out.2.1, (dest, f.data.length) :: out.2.2)
        else (500, fs, [])
      else (500, fs, [])

/-! ## The message handler -/

/-- `handle_message`: scan the multipart stream; every part named
`"message"` whose text decodes and is nonempty after trimming emits a
notification line; the status is always 200.  Returns
(status, emitted notification texts in order). -/
def handle_message : List (NextField MessageField) → Nat × List String
  | [] => (200, [])
  | NextField.done :: _ => (200, [])
  | NextField.fErr :: _ => (200, [])
  | NextField.ok f :: rest =>
    let out := handle_message rest
    if f.name == some "message" then
      if f.textOk then
        if (rustTrim f.text).isEmpty then out
        else (out.1, rustTrim f.text :: out.2)
      else out
    else out

/-! ## Body-size configuration and guard -/

/-- Rust `str::parse::<usize>()`: optional leading `'+'`, then one or
more ASCII digits, failing on overflow past `usize::MAX`. -/
def rustParseUsize (s : String) : Option Nat :=
  let cs := match s.data with
    | '+' :: rest => rest
    | cs => cs
  if cs = [] then none
  else if cs.all (fun c => c.isDigit) then
    let v := cs.foldl (fun acc c => acc * 10 + (c.toNat - 48)) 0
    if v < 2 ^ 64 then some v else none
  else none

/-- `env::var("DROPZONE_MAX_BODY_SIZE").ok().and_then(|a| a.parse().ok())`:
the configured maximum body size, `none` when absent or unparsable. -/
def maxBodySize (envVal : Option String) : Option Nat :=
  envVal.bind (fun a => rustParseUsize a)

/-- Modelled from the spec: the body-size guard around the upload route.
`RequestBodyLimitLayer` (an external crate, installed in `main` only when
a maximum is configured) rejects a request whose body exceeds the limit
with 413 before the handler runs; with no maximum configured the body
size is unlimited and the handler always runs. -/
def serve_upload (maxSize : Option Nat) (bodyLen : Nat) (uuids : List String)
    (fs : FS) (events : List (NextField UploadField)) :
    Nat × FS × List (String × Nat) :=
  match maxSize with
  | some k => if bodyLen > k then (413, fs, []) else handle_upload uuids fs events
  | none => handle_upload uuids fs events

/-- Modelled from the spec: the body-size guard around the message route,
as for `serve_upload`. -/
def serve_message (maxSize : Option Nat) (bodyLen : Nat)
    (events : List (NextField MessageField)) : Nat × List String :=
  match maxSize with
  | some k => if bodyLen > k then (413, []) else handle_message events
  | none => handle_message events

/-! ## Derived predicates used in the statements -/

/-- A part `handle_upload` does not skip: it carries a nonempty file
name. -/
def isFilePart (f : UploadField) : Bool :=
  match f.fileName with
  | some n => !n.isEmpty
  | none => false

/-- A part whose processing succeeds: skipped, or read and written
without error. -/
def fieldOk (f : UploadField) : Bool :=
  if isFilePart f then f.readOk && f.writeOk else true

/-- A part at which `handle_upload` aborts: file-bearing, and its read
or its write fails. -/
def fieldFails (f : UploadField) : Bool :=
  isFilePart f && (!f.readOk || !f.writeOk)

/-- The writes `handle_upload` performs on a list of fields when every
read and write succeeds: destination name paired with payload, in part
order, consuming one uuid per file-bearing part. -/
def plannedWrites (uuids : List String) : List UploadField → List (String × Bytes)
  | [] => []
  | f :: rest =>
    match f.fileName with
    | none => plannedWrites uuids rest
    | some n =>
      if n.isEmpty then plannedWrites uuids rest
      else (destName n (uuids.headD ""), f.data) :: plannedWrites uuids.tail rest

/-- A message part that produces a notification: named `"message"`,
text decodes, trimmed text nonempty. -/
def emitsMessage (f : MessageField) : Bool :=
  f.name == some "message" && f.textOk && !(rustTrim f.text).isEmpty

/-- The notification text a message part produces, if any. -/
def messageOf (f : MessageField) : Option String :=
  if emitsMessage f then some (rustTrim f.text) else none

/-- The fields the `while let Ok(Some(field))` loop actually sees: the
longest prefix of `ok` events of the stream. -/
def okPrefix {F : Type} : List (NextField F) → List F
  | NextField.ok f :: rest => f :: okPrefix rest
  | _ => []

/-! ## Helper lemmas -/

theorem okPrefix_map_ok {F : Type} :
    ∀ l : List F, okPrefix (l.map NextField.ok) = l
  | [] => rfl
  | f :: rest => by simp [okPrefix, okPrefix_map_ok rest]

theorem okPrefix_append_fErr {F : Type} :
    ∀ pre rest : List (NextField F),
    okPrefix (pre ++ NextField.fErr :: rest) = okPrefix pre
  | [], _ => rfl
  | NextField.done :: _, _ => rfl
  | NextField.fErr :: _, _ => rfl
  | NextField.ok f :: pre, rest => by
    simp [okPrefix, okPrefix_append_fErr pre rest]

theorem fsWrite_fresh (n : String) (d : Bytes) (fs : FS)
    (h : n ∉ fs.map Prod.fst) : fsWrite n d fs = (n, d) :: fs := by
  unfold fsWrite
  congr 1
  apply List.filter_eq_self.mpr
  intro p hp
  have : p.1 ≠ n := by
    intro he
    exact h (he ▸ List.mem_map_of_mem Prod.fst hp)
  simpa [bne_iff_ne] using this

theorem handle_message_eq :
    ∀ evs : List (NextField MessageField),
    handle_message evs = (200, (okPrefix evs).filterMap messageOf)
  | [] => rfl
  | NextField.done :: _ => rfl
  | NextField.fErr :: _ => rfl
  | NextField.ok f :: rest => by
    have ih := handle_message_eq rest
    simp only [handle_message, okPrefix, List.filterMap_cons, ih, messageOf, emitsMessage]
    by_cases h1 : f.name == some "message" <;>
      by_cases h2 : f.textOk <;>
        by_cases h3 : (rustTrim f.text).isEmpty <;>
          simp [h1, h2, h3]

theorem filterMap_ne_nil_iff :
    ∀ flds : List MessageField,
    (flds.filterMap messageOf ≠ [] ↔ ∃ f ∈ flds, emitsMessage f = true)
  | [] => by simp
  | f :: rest => by
    by_cases h : emitsMessage f <;>
      simp [List.filterMap_cons, messageOf, h, filterMap_ne_nil_iff rest]

theorem filterMap_messageOf :
    ∀ flds : List MessageField,
    flds.filterMap messageOf = (flds.filter emitsMessage).map (fun f => rustTrim f.text)
  | [] => rfl
  | f :: rest => by
    by_cases h : emitsMessage f <;>
      simp [List.filterMap_cons, messageOf, h, filterMap_messageOf rest]

theorem handle_upload_append_fErr :
    ∀ (pre : List (NextField UploadField)) (uuids : List String) (fs : FS)
      (rest : List (NextField UploadField)),
    handle_upload uuids fs (pre ++ NextField.fErr :: rest) = handle_upload uuids fs pre
  | [], _, _, _ => rfl
  | NextField.done :: _, _, _, _ => rfl
  | NextField.fErr :: _, _, _, _ => rfl
  | NextField.ok f :: pre, uuids, fs, rest => by
    cases hf : f.fileName with
    | none =>
      simp only [List.cons_append, handle_upload, hf]
      exact handle_upload_append_fErr pre uuids fs rest
    | some n =>
      by_cases hn : n.isEmpty <;> by_cases hr : f.readOk <;> by_cases hw : f.writeOk <;>
        simp [handle_upload, hf, hn, hr, hw, handle_upload_append_fErr pre]

theorem handle_upload_status_ok :
    ∀ (flds : List UploadField) (uuids : List String) (fs : FS),
    (∀ f ∈ flds, fieldOk f = true) →
    (handle_upload uuids fs (flds.map NextField.ok)).1 = 200
  | [], _, _, _ => rfl
  | f :: rest, uuids, fs, h => by
    have hf : fieldOk f = true := h f (List.mem_cons_self f rest)
    have hrest : ∀ g ∈ rest, fieldOk g = true := fun g hg => h g (List.mem_cons_of_mem f hg)
    cases hn : f.fileName with
    | none =>
      simp only [List.map_cons, handle_upload, hn]
      exact handle_upload_status_ok rest uuids fs hrest
    | some n =>
      by_cases he : n.isEmpty
      · simp only [List.map_cons, handle_upload, hn, he, if_true]
        exact handle_upload_status_ok rest uuids fs hrest
      · have hfile : isFilePart f = true := by simp [isFilePart, hn, he]
        have hrw : f.readOk = true ∧ f.writeOk = true := by
          have := hf
          simp [fieldOk, hfile] at this
          exact this
        simp only [List.map_cons, handle_upload, hn, he, hrw.1, hrw.2, if_false, if_true]
        exact handle_upload_status_ok rest uuids.tail
          (fsWrite (destName n (uuids.headD "")) f.data fs) hrest

theorem plannedWrites_length :
    ∀ (flds : List UploadField) (uuids : List String),
    (plannedWrites uuids flds).length = (flds.filter isFilePart).length
  | [], _ => rfl
  | f :: rest, uuids => by
    cases hn : f.fileName with
    | none =>
      simp [plannedWrites, hn, List.filter_cons, isFilePart,
        plannedWrites_length rest uuids]
    | some n =>
      by_cases he : n.isEmpty <;>
        simp [plannedWrites, hn, he, List.filter_cons, isFilePart,
          plannedWrites_length rest, plannedWrites_length rest uuids]

theorem plannedWrites_map_snd :
    ∀ (flds : List UploadField) (uuids : List String),
    (plannedWrites uuids flds).map Prod.snd
      = (flds.filter isFilePart).map UploadField.data
  | [], _ => rfl
  | f :: rest, uuids => by
    cases hn : f.fileName with
    | none =>
      simp [plannedWrites, hn, List.filter_cons, isFilePart,
        plannedWrites_map_snd rest uuids]
    | some n =>
      by_cases he : n.isEmpty <;>
        simp [plannedWrites, hn, he, List.filter_cons, isFilePart,
          plannedWrites_map_snd rest, plannedWrites_map_snd rest uuids]

theorem plannedWrites_cons_none (uuids : List String) (f : UploadField)
    (rest : List UploadField) (h : f.fileName = none) :
    plannedWrites uuids (f :: rest) = plannedWrites uuids rest := by
  simp [plannedWrites, h]

theorem plannedWrites_cons_empty (uuids : List String) (f : UploadField)
    (rest : List UploadField) (n : String) (h : f.fileName = some n)
    (he : n.isEmpty = true) :
    plannedWrites uuids (f :: rest) = plannedWrites uuids rest := by
  simp [plannedWrites, h, he]

theorem plannedWrites_cons_file (uuids : List String) (f : UploadField)
    (rest : List UploadField) (n : String) (h : f.fileName = some n)
    (he : ¬n.isEmpty = true) :
    plannedWrites uuids (f :: rest)
      = (destName n (uuids.headD ""), f.data) :: plannedWrites uuids.tail rest := by
  simp [plannedWrites, h, he]

theorem handle_upload_all_ok :
    ∀ (flds : List UploadField) (uuids : List String) (fs : FS),
    (∀ f ∈ flds, fieldOk f = true) →
    ((plannedWrites uuids flds).map Prod.fst).Nodup →
    (∀ n ∈ (plannedWrites uuids flds).map Prod.fst, n ∉ fs.map Prod.fst) →
    handle_upload uuids fs (flds.map NextField.ok)
      = (200, (plannedWrites uuids flds).reverse ++ fs,
          (plannedWrites uuids flds).map (fun p => (p.1, p.2.length)))
  | [], _, fs, _, _, _ => rfl
  | f :: rest, uuids, fs, hok, hnd, hfresh => by
    have hf : fieldOk f = true := hok f (List.mem_cons_self f rest)
    have hrest : ∀ g ∈ rest, fieldOk g = true := fun g hg => hok g (List.mem_cons_of_mem f hg)
    cases hn : f.fileName with
    | none =>
      rw [plannedWrites_cons_none uuids f rest hn] at hnd hfresh ⊢
      simp only [List.map_cons, handle_upload, hn]
      exact handle_upload_all_ok rest uuids fs hrest hnd hfresh
    | some n =>
      by_cases he : n.isEmpty
      · rw [plannedWrites_cons_empty uuids f rest n hn he] at hnd hfresh ⊢
        simp only [List.map_cons, handle_upload, hn, he, if_true]
        exact handle_upload_all_ok rest uuids fs hrest hnd hfresh
      · have hfile : isFilePart f = true := by simp [isFilePart, hn, he]
        have hrw : f.readOk = true ∧ f.writeOk = true := by
          have := hf
          simp [fieldOk, hfile] at this
          exact this
        rw [plannedWrites_cons_file uuids f rest n hn he] at hnd hfresh ⊢
        set dest := destName n (uuids.headD "") with hdest
        simp only [List.map_cons, List.mem_cons] at hnd hfresh
        have hnd' : ((plannedWrites uuids.tail rest).map Prod.fst).Nodup :=
          (List.nodup_cons.mp hnd).2
        have hdmem : dest ∉ (plannedWrites uuids.tail rest).map Prod.fst :=
          (List.nodup_cons.mp hnd).1
        have hdfs : dest ∉ fs.map Prod.fst := hfresh dest (Or.inl rfl)
        have hfresh' : ∀ m ∈ (plannedWrites uuids.tail rest).map Prod.fst,
            m ∉ (fsWrite dest f.data fs).map Prod.fst := by
          intro m hm
          rw [fsWrite_fresh dest f.data fs hdfs]
          simp only [List.map_cons, List.mem_cons]
          rintro (h | h)
          · exact hdmem (h ▸ hm)
          · exact hfresh m (Or.inr hm) h
        have ih := handle_upload_all_ok rest uuids.tail (fsWrite dest f.data fs)
          hrest hnd' hfresh'
        rw [fsWrite_fresh dest f.data fs hdfs] at ih
        simp only [List.map_cons, handle_upload, hn, he, hrw.1, hrw.2,
          if_false, if_true, ← hdest]
        rw [fsWrite_fresh dest f.data fs hdfs]
        simp [ih, List.append_assoc]

theorem handle_upload_abort :
    ∀ (pre : List UploadField) (uuids : List String) (fs : FS) (f : UploadField)
      (rest : List (NextField UploadField)),
    (∀ g ∈ pre, fieldOk g = true) → fieldFails f = true →
    handle_upload uuids fs (pre.map NextField.ok ++ NextField.ok f :: rest)
      = (500, (handle_upload uuids fs (pre.map NextField.ok)).2.1,
          (handle_upload uuids fs (pre.map NextField.ok)).2.2)
  | [], uuids, fs, f, rest, _, hfail => by
    have hfile : isFilePart f = true := by
      cases hfp : isFilePart f
      · rw [fieldFails, hfp] at hfail
        cases hfail
      · rfl
    obtain ⟨n, hn, he⟩ : ∃ n, f.fileName = some n ∧ n.isEmpty = false := by
      cases hn : f.fileName with
      | none => rw [isFilePart, hn] at hfile; cases hfile
      | some n =>
        refine ⟨n, rfl, ?_⟩
        rw [isFilePart, hn] at hfile
        simpa using hfile
    have hor : f.readOk = false ∨ f.writeOk = false := by
      rw [fieldFails, hfile, Bool.true_and, Bool.or_eq_true, Bool.not_eq_true',
        Bool.not_eq_true'] at hfail
      exact hfail
    rcases hor with h | h
    · simp [handle_upload, hn, he, h]
    · by_cases hr : f.readOk <;> simp [handle_upload, hn, he, hr, h]
  | g :: pre, uuids, fs, f, rest, hok, hfail => by
    have hg : fieldOk g = true := hok g (List.mem_cons_self g pre)
    have hpre : ∀ x ∈ pre, fieldOk x = true := fun x hx => hok x (List.mem_cons_of_mem g hx)
    cases hn : g.fileName with
    | none =>
      simp only [List.map_cons, List.cons_append, handle_upload, hn]
      exact handle_upload_abort pre uuids fs f rest hpre hfail
    | some n =>
      by_cases he : n.isEmpty
      · simp only [List.map_cons, List.cons_append, handle_upload, hn, he, if_true]
        exact handle_upload_abort pre uuids fs f rest hpre hfail
      · have hfile : isFilePart g = true := by simp [isFilePart, hn, he]
        have hrw : g.readOk = true ∧ g.writeOk = true := by
          have := hg
          simp [fieldOk, hfile] at this
          exact this
        have ih := handle_upload_abort pre uuids.tail
          (fsWrite (destName n (uuids.headD "")) g.data fs) f rest hpre hfail
        simp only [List.map_cons, List.cons_append, handle_upload, hn, he,
          hrw.1, hrw.2, if_false, if_true]
        simp at ih
        simp [ih]

/-! ## Claims -/

/-- C1: when a part's payload read or disk write fails, the handler
returns 500 at once: the run on `earlier parts ++ failing part ++ rest`
has status 500, its filesystem is exactly the filesystem after the
earlier parts alone (already-written files are kept, nothing is rolled
back, nothing is written for the failing part), its log is the log of
the earlier parts, and the remaining parts `rest` never influence the
outcome. -/
theorem c1_failure_aborts_request (uuids : List String) (fs : FS)
    (pre : List UploadField) (f : UploadField) (rest : List (NextField UploadField))
    (hok : ∀ g ∈ pre, fieldOk g = true) (hfail : fieldFails f = true) :
    handle_upload uuids fs (pre.map NextField.ok ++ NextField.ok f :: rest)
      = (500, (handle_upload uuids fs (pre.map NextField.ok)).2.1,
          (handle_upload uuids fs (pre.map NextField.ok)).2.2) :=
  handle_upload_abort pre uuids fs f rest hok hfail

/-- C1 witness: three file parts, the second failing its write — the
response is 500 and the state is that after the first part alone; the
third part is untouched. -/
theorem c1_failure_aborts_request_witness :
    handle_upload ["11111111x", "22222222x"] []
        ([(⟨some "a.txt", true, [1], true⟩ : UploadField)].map NextField.ok
          ++ NextField.ok ⟨some "b.txt", true, [2], false⟩
            :: [NextField.ok ⟨some "c.txt", true, [3], true⟩])
      = (500,
          (handle_upload ["11111111x", "22222222x"] []
            ([(⟨some "a.txt", true, [1], true⟩ : UploadField)].map NextField.ok)).2.1,
          (handle_upload ["11111111x", "22222222x"] []
            ([(⟨some "a.txt", true, [1], true⟩ : UploadField)].map NextField.ok)).2.2) :=
  c1_failure_aborts_request _ _ _ _ _ (by decide) (by decide)

/-- C2: when every read and write succeeds and the resolved destination
names collide neither with each other nor with existing files, the run
returns 200, the final filesystem is exactly the planned new files on
top of the old ones (one per file-bearing part, so exactly N new files
for N file-bearing parts), and the new files' contents are exactly the
payloads of the file-bearing parts. -/
theorem c2_all_success_writes_every_part (flds : List UploadField)
    (uuids : List String) (fs : FS)
    (h1 : ∀ f ∈ flds, fieldOk f = true)
    (h2 : ((plannedWrites uuids flds).map Prod.fst).Nodup)
    (h3 : ∀ n ∈ (plannedWrites uuids flds).map Prod.fst, n ∉ fs.map Prod.fst) :
    handle_upload uuids fs (flds.map NextField.ok)
      = (200, (plannedWrites uuids flds).reverse ++ fs,
          (plannedWrites uuids flds).map (fun p => (p.1, p.2.length))) ∧
    (handle_upload uuids fs (flds.map NextField.ok)).2.1.length
      = (flds.filter isFilePart).length + fs.length ∧
    (plannedWrites uuids flds).map Prod.snd
      = (flds.filter isFilePart).map UploadField.data := by
  have h := handle_upload_all_ok flds uuids fs h1 h2 h3
  refine ⟨h, ?_, plannedWrites_map_snd flds uuids⟩
  rw [h]
  simp [plannedWrites_length flds uuids]

/-- C2 witness: two file-bearing parts (with a nameless part between)
on a one-file filesystem: both payloads land in two fresh files. -/
theorem c2_all_success_writes_every_part_witness :
    handle_upload ["11111111-aa", "22222222-bb"] [("old", [0])]
        ([⟨some "a.txt", true, [1, 2], true⟩, ⟨none, true, [9], true⟩,
          (⟨some "b.png", true, [3], true⟩ : UploadField)].map NextField.ok)
      = (200,
          (plannedWrites ["11111111-aa", "22222222-bb"]
            [⟨some "a.txt", true, [1, 2], true⟩, ⟨none, true, [9], true⟩,
              (⟨some "b.png", true, [3], true⟩ : UploadField)]).reverse ++ [("old", [0])],
          (plannedWrites ["11111111-aa", "22222222-bb"]
            [⟨some "a.txt", true, [1, 2], true⟩, ⟨none, true, [9], true⟩,
              (⟨some "b.png", true, [3], true⟩ : UploadField)]).map
            (fun p => (p.1, p.2.length))) :=
  (c2_all_success_writes_every_part _ _ _ (by decide) (by decide) (by decide)).1

/-- C6: an iterator error (malformed multipart framing) ends part
iteration exactly like exhaustion, in both handlers: the run on
`pre ++ error ++ rest` equals the run on `pre` alone, and when the
parts before the break all succeeded the upload status is the normal
200. -/
theorem c6_framing_error_like_exhaustion (uuids : List String) (fs : FS)
    (pre rest : List (NextField UploadField))
    (mpre mrest : List (NextField MessageField))
    (flds : List UploadField) (rest2 : List (NextField UploadField))
    (hok : ∀ f ∈ flds, fieldOk f = true) :
    handle_upload uuids fs (pre ++ NextField.fErr :: rest)
      = handle_upload uuids fs pre ∧
    handle_message (mpre ++ NextField.fErr :: mrest) = handle_message mpre ∧
    (handle_upload uuids fs (flds.map NextField.ok ++ NextField.fErr :: rest2)).1
      = 200 := by
  refine ⟨handle_upload_append_fErr pre uuids fs rest, ?_, ?_⟩
  · rw [handle_message_eq, handle_message_eq, okPrefix_append_fErr]
  · rw [handle_upload_append_fErr (flds.map NextField.ok) uuids fs rest2]
    exact handle_upload_status_ok flds uuids fs hok

/-- C6 witness: a framing break after one successful file part leaves
the outcome of that part alone, with status 200, in both handlers. -/
theorem c6_framing_error_like_exhaustion_witness :
    handle_upload ["11111111x"] []
        ([NextField.ok ⟨some "a.txt", true, [1], true⟩]
          ++ NextField.fErr :: [NextField.ok ⟨some "b.txt", true, [2], true⟩])
      = handle_upload ["11111111x"] [] [NextField.ok ⟨some "a.txt", true, [1], true⟩] ∧
    handle_message ([NextField.ok ⟨some "message", true, "hi"⟩]
          ++ NextField.fErr :: [NextField.ok ⟨some "message", true, "bye"⟩])
      = handle_message [NextField.ok ⟨some "message", true, "hi"⟩] ∧
    (handle_upload ["11111111x"] []
        ([(⟨some "a.txt", true, [1], true⟩ : UploadField)].map NextField.ok
          ++ NextField.fErr :: [])).1 = 200 :=
  c6_framing_error_like_exhaustion ["11111111x"] []
    [NextField.ok ⟨some "a.txt", true, [1], true⟩]
    [NextField.ok ⟨some "b.txt", true, [2], true⟩]
    [NextField.ok ⟨some "message", true, "hi"⟩]
    [NextField.ok ⟨some "message", true, "bye"⟩]
    [⟨some "a.txt", true, [1], true⟩] [] (by decide)

/-- C4: a part with a missing or empty file name is skipped: the run
on the stream with that part is the run on the stream without it — no
file is written, no error status arises from it, and later parts are
processed exactly as before. -/
theorem c4_nameless_part_skipped (uuids : List String) (fs : FS)
    (f : UploadField) (rest : List (NextField UploadField))
    (h : f.fileName = none ∨ f.fileName = some "") :
    handle_upload uuids fs (NextField.ok f :: rest) = handle_upload uuids fs rest := by
  have hemp : "".isEmpty = true := rfl
  rcases h with h | h <;> simp [handle_upload, h, hemp]

/-- C4 witness: a part with an empty file name between two named parts
leaves the request's outcome exactly that of the stream without it. -/
theorem c4_nameless_part_skipped_witness :
    handle_upload ["11111111x"] []
        (NextField.ok ⟨some "", true, [7], true⟩
          :: [NextField.ok ⟨some "b.txt", true, [3], true⟩])
      = handle_upload ["11111111x"] [] [NextField.ok ⟨some "b.txt", true, [3], true⟩] :=
  c4_nameless_part_skipped _ _ _ _ (Or.inr rfl)

/-- C10: a `"message"` part whose text fails to decode is silently
ignored: the run equals the run on the remaining parts (no event, no
error), and the response is still 200. -/
theorem c10_undecodable_message_ignored (f : MessageField)
    (rest : List (NextField MessageField)) (h : f.textOk = false) :
    handle_message (NextField.ok f :: rest) = handle_message rest ∧
    (handle_message (NextField.ok f :: rest)).1 = 200 := by
  have heq : handle_message (NextField.ok f :: rest) = handle_message rest := by
    simp [handle_message, h]
  exact ⟨heq, by rw [heq, handle_message_eq]⟩

/-- C10 witness: a single undecodable `"message"` part produces the
empty run with status 200. -/
theorem c10_undecodable_message_ignored_witness :
    handle_message [NextField.ok ⟨some "message", false, "x"⟩] = handle_message [] ∧
    (handle_message [NextField.ok ⟨some "message", false, "x"⟩]).1 = 200 :=
  c10_undecodable_message_ignored ⟨some "message", false, "x"⟩ [] rfl

/-- C5: the message handler returns 200 and emits exactly the trimmed
texts of the parts named `"message"` whose text decodes and is nonempty
after trimming; in particular it emits some event iff such a part
exists, a whitespace-only message produces no event, and
`"  hello  "` produces the event `"hello"`. -/
theorem c5_message_events (flds : List MessageField) :
    (handle_message (flds.map NextField.ok)).1 = 200 ∧
    (handle_message (flds.map NextField.ok)).2 = flds.filterMap messageOf ∧
    ((handle_message (flds.map NextField.ok)).2 ≠ [] ↔
      ∃ f ∈ flds, f.name = some "message" ∧ f.textOk = true ∧ rustTrim f.text ≠ "") ∧
    (handle_message [NextField.ok ⟨some "message", true, "  hello  "⟩]).2 = ["hello"] ∧
    (handle_message [NextField.ok ⟨some "message", true, "   "⟩]).2 = [] := by
  refine ⟨by rw [handle_message_eq], ?_, ?_, by decide, by decide⟩
  · rw [handle_message_eq, okPrefix_map_ok]
  · rw [handle_message_eq, okPrefix_map_ok, filterMap_ne_nil_iff]
    apply exists_congr
    intro f
    apply and_congr_right
    intro _
    simp only [emitsMessage, Bool.and_eq_true, beq_iff_eq, Bool.not_eq_true']
    constructor
    · rintro ⟨⟨ha, hb⟩, hc⟩
      refine ⟨ha, hb, fun he => ?_⟩
      rw [(String.isEmpty_iff _).mpr he] at hc
      cases hc
    · rintro ⟨ha, hb, hc⟩
      refine ⟨⟨ha, hb⟩, ?_⟩
      cases hb2 : (rustTrim f.text).isEmpty with
      | false => rfl
      | true => exact absurd ((String.isEmpty_iff _).mp hb2) hc

/-- C9 (amended): the message handler emits one notification event per
part named `"message"` with decodable, nonempty-after-trimming text —
so a request with several such parts emits several events, not at most
one. -/
theorem c9_one_event_per_message_part (flds : List MessageField) :
    (handle_message (flds.map NextField.ok)).2.length
      = (flds.filter emitsMessage).length := by
  rw [handle_message_eq, okPrefix_map_ok]
  simp [filterMap_messageOf]

/-- C9 counterexample: a request with two parts named `"message"`
emits two notification events, not at most one. -/
theorem c9_counterexample :
    ¬ ((handle_message [NextField.ok ⟨some "message", true, "hello"⟩,
          NextField.ok ⟨some "message", true, "world"⟩]).2.length ≤ 1) := by
  decide

/-- C3: a written part's destination name is exactly
`stem ++ "-" ++ token ++ extension`, with stem and extension decomposed
from the original file name (the extension is `""` when absent and
carries its leading dot when present), and the token — the 8-byte
prefix of the fresh uuid string — has exactly 8 characters; for
`photo.jpg` the stem is `photo` and the extension `.jpg`. -/
theorem c3_destination_name_composition (n u : String) (us : List String)
    (fs : FS) (f : UploadField) (hu : 8 ≤ u.length)
    (hname : f.fileName = some n) (hn : n.isEmpty = false)
    (hr : f.readOk = true) (hw : f.writeOk = true) :
    handle_upload (u :: us) fs [NextField.ok f]
      = (200, fsWrite (stemOf n ++ "-" ++ take8 u ++ extOf n) f.data fs,
          [(stemOf n ++ "-" ++ take8 u ++ extOf n, f.data.length)]) ∧
    (take8 u).length = 8 ∧
    (extOf n = "" ∨ ∃ e, extOf n = "." ++ e) ∧
    stemOf "photo.jpg" = "photo" ∧ extOf "photo.jpg" = ".jpg" := by
  refine ⟨?_, ?_, ?_, by decide, by decide⟩
  · simp [handle_upload, hname, hn, hr, hw, destName]
  · have h : (take8 u).length = (u.data.take 8).length := rfl
    rw [h, List.length_take]
    exact Nat.min_eq_left hu
  · unfold extOf
    cases hfn : rustFileName n with
    | none => simp [hfn]
    | some m =>
      cases hse : (rustSplitExt m).2 with
      | none => simp [hfn, hse]
      | some e =>
        refine Or.inr ⟨e, ?_⟩
        simp [hfn, hse]

/-- C3 witness: uploading `photo.jpg` with a 36-character uuid writes
`photo-<first 8 uuid characters>.jpg` with the part's payload. -/
theorem c3_destination_name_composition_witness :
    handle_upload ["11111111-aaaa-bbbb-cccc-dddddddddddd"] []
        [NextField.ok ⟨some "photo.jpg", true, [7, 8], true⟩]
      = (200,
          fsWrite (stemOf "photo.jpg" ++ "-"
              ++ take8 "11111111-aaaa-bbbb-cccc-dddddddddddd"
              ++ extOf "photo.jpg") [7, 8] [],
          [(stemOf "photo.jpg" ++ "-"
              ++ take8 "11111111-aaaa-bbbb-cccc-dddddddddddd"
              ++ extOf "photo.jpg", 2)]) :=
  (c3_destination_name_composition "photo.jpg"
    "11111111-aaaa-bbbb-cccc-dddddddddddd" [] []
    ⟨some "photo.jpg", true, [7, 8], true⟩
    (by decide) rfl rfl rfl rfl).1

/-- C7: within one request, parts sharing their original file name
still go to distinct destinations when their uuid tokens differ: the
two composed names differ, and the run writes both payloads as two new
files on top of the untouched initial filesystem — neither part
overwrites the other or any existing file. -/
theorem c7_distinct_destinations (nm u1 u2 : String) (us : List String)
    (fs : FS) (f1 f2 : UploadField)
    (h1 : f1.fileName = some nm) (h2 : f2.fileName = some nm)
    (hn : nm.isEmpty = false)
    (hr1 : f1.readOk = true) (hw1 : f1.writeOk = true)
    (hr2 : f2.readOk = true) (hw2 : f2.writeOk = true)
    (ht : take8 u1 ≠ take8 u2)
    (hf1 : destName nm u1 ∉ fs.map Prod.fst)
    (hf2 : destName nm u2 ∉ fs.map Prod.fst) :
    destName nm u1 ≠ destName nm u2 ∧
    handle_upload (u1 :: u2 :: us) fs [NextField.ok f1, NextField.ok f2]
      = (200, (destName nm u2, f2.data) :: (destName nm u1, f1.data) :: fs,
          [(destName nm u1, f1.data.length), (destName nm u2, f2.data.length)]) := by
  have hne : destName nm u1 ≠ destName nm u2 := by
    intro hEq
    apply ht
    have hd := congrArg String.data hEq
    simp only [destName, String.data_append, List.append_assoc] at hd
    have hd2 := List.append_cancel_left hd
    have hd3 := List.append_cancel_left hd2
    have hd4 := List.append_cancel_right hd3
    exact String.ext hd4
  refine ⟨hne, ?_⟩
  have hfresh2 : destName nm u2 ∉ ((destName nm u1, f1.data) :: fs).map Prod.fst := by
    simp only [List.map_cons, List.mem_cons]
    rintro (h | h)
    · exact hne h.symm
    · exact hf2 h
  have he : ¬nm.isEmpty = true := by simp [hn]
  have e1 : fsWrite (destName nm u1) f1.data fs = (destName nm u1, f1.data) :: fs :=
    fsWrite_fresh _ _ _ hf1
  have e2 : fsWrite (destName nm u2) f2.data ((destName nm u1, f1.data) :: fs)
      = (destName nm u2, f2.data) :: (destName nm u1, f1.data) :: fs :=
    fsWrite_fresh _ _ _ hfresh2
  simp [handle_upload, h1, h2, he, hr1, hw1, hr2, hw2, e1, e2]

/-- C7 witness: two parts both named `dup.txt` with distinct uuid
prefixes produce two distinct files, both with their own content. -/
theorem c7_distinct_destinations_witness :
    destName "dup.txt" "11111111-aaaa-bbbb-cccc-dddddddddddd"
      ≠ destName "dup.txt" "22222222-aaaa-bbbb-cccc-dddddddddddd" ∧
    handle_upload ["11111111-aaaa-bbbb-cccc-dddddddddddd",
        "22222222-aaaa-bbbb-cccc-dddddddddddd"] []
        [NextField.ok ⟨some "dup.txt", true, [1], true⟩,
          NextField.ok ⟨some "dup.txt", true, [2], true⟩]
      = (200,
          (destName "dup.txt" "22222222-aaaa-bbbb-cccc-dddddddddddd", [2])
            :: (destName "dup.txt" "11111111-aaaa-bbbb-cccc-dddddddddddd", [1]) :: [],
          [(destName "dup.txt" "11111111-aaaa-bbbb-cccc-dddddddddddd", 1),
            (destName "dup.txt" "22222222-aaaa-bbbb-cccc-dddddddddddd", 1)]) :=
  c7_distinct_destinations "dup.txt" "11111111-aaaa-bbbb-cccc-dddddddddddd"
    "22222222-aaaa-bbbb-cccc-dddddddddddd" [] []
    ⟨some "dup.txt", true, [1], true⟩ ⟨some "dup.txt", true, [2], true⟩
    rfl rfl rfl rfl rfl rfl rfl (by decide) (by simp) (by simp)

/-- C8: with a maximum body size `K` parsed from the environment, a
request whose body exceeds `K` is rejected with 413 before either
handler runs — the filesystem is untouched and no event is emitted —
while with no configured maximum both routes always run their
handler, whatever the body size. -/
theorem c8_body_size_guard (envVal : Option String) (k bodyLen : Nat)
    (uuids : List String) (fs : FS) (events : List (NextField UploadField))
    (mevents : List (NextField MessageField))
    (hk : maxBodySize envVal = some k) (hb : k < bodyLen) :
    serve_upload (maxBodySize envVal) bodyLen uuids fs events = (413, fs, []) ∧
    serve_message (maxBodySize envVal) bodyLen mevents = (413, []) ∧
    (∀ b2, serve_upload (maxBodySize none) b2 uuids fs events
        = handle_upload uuids fs events) ∧
    (∀ b2, serve_message (maxBodySize none) b2 mevents
        = handle_message mevents) := by
  refine ⟨?_, ?_, fun b2 => rfl, fun b2 => rfl⟩
  · rw [hk]
    simp [serve_upload, hb]
  · rw [hk]
    simp [serve_message, hb]

/-- C8 witness: with `DROPZONE_MAX_BODY_SIZE=1000`, a 1001-byte body
is rejected with 413 on both routes and no file is written. -/
theorem c8_body_size_guard_witness :
    serve_upload (maxBodySize (some "1000")) 1001 [] []
        [NextField.ok ⟨some "a.txt", true, [1], true⟩] = (413, [], []) ∧
    serve_message (maxBodySize (some "1000")) 1001
        [NextField.ok ⟨some "message", true, "hi"⟩] = (413, []) :=
  ⟨(c8_body_size_guard (some "1000") 1000 1001 [] []
      [NextField.ok ⟨some "a.txt", true, [1], true⟩]
      [NextField.ok ⟨some "message", true, "hi"⟩] (by decide) (by decide)).1,
    (c8_body_size_guard (some "1000") 1000 1001 [] []
      [NextField.ok ⟨some "a.txt", true, [1], true⟩]
      [NextField.ok ⟨some "message", true, "hi"⟩] (by decide) (by decide)).2.1⟩

end DropZone
